import Mathlib

/-
  Verification development for the ZoteroTLDR task-queue / streaming-retry core.

  The definitions below are a shallow embedding of:
  - `src/llm/providers.ts` (`parseSSEResponse`, `parseSingleResponse`), including
    a model of JavaScript `JSON.parse` and of the WHATWG streaming UTF-8 decoder
    used by `TextDecoder.decode(chunk, (stream: true))`;
  - `src/modules/aiSummary.ts` (`GlobalTaskQueue`, `summarizeWithRemotePdfWithRetry`,
    `summarizeSinglePdf`).

  JavaScript strings are modelled as `List Char`; byte streams as `List Nat`
  (each entry < 256).  Fallible operations return `Option` / `Except`.
-/

set_option maxRecDepth 20000

namespace ZoteroTLDR

/-! ### JSON values and a model of JavaScript JSON.parse -/

/-- A parsed JSON value.  Numbers keep their sign, integer digits, fraction
digits and exponent so that JavaScript truthiness (`0`, `0.0e5` are falsy)
is decidable without real arithmetic. -/
inductive JsonVal where
  | null : JsonVal
  | bool (b : Bool) : JsonVal
  | num (neg : Bool) (ip : List Char) (fp : List Char) (ex : Option (Bool × List Char)) : JsonVal
  | str (s : List Char) : JsonVal
  | arr (xs : List JsonVal) : JsonVal
  | obj (fs : List (List Char × JsonVal)) : JsonVal
deriving Repr

/-- JSON whitespace accepted between tokens by `JSON.parse`. -/
def jsonWs (c : Char) : Bool :=
  c = ' ' || c = '\t' || c = '\n' || c = '\r'

/-- Drop leading JSON whitespace. -/
def skipWs : List Char → List Char
  | [] => []
  | c :: rest => if jsonWs c then skipWs rest else c :: rest

/-- Hexadecimal digit value. -/
def hexVal (c : Char) : Option Nat :=
  if '0' ≤ c ∧ c ≤ '9' then some (c.toNat - '0'.toNat)
  else if 'a' ≤ c ∧ c ≤ 'f' then some (c.toNat - 'a'.toNat + 10)
  else if 'A' ≤ c ∧ c ≤ 'F' then some (c.toNat - 'A'.toNat + 10)
  else none

/-- Value of a `\uXXXX` escape. -/
def hex4 (a b c d : Char) : Option Nat := do
  let va ← hexVal a
  let vb ← hexVal b
  let vc ← hexVal c
  let vd ← hexVal d
  pure (va * 4096 + vb * 256 + vc * 16 + vd)

/-- Single-character JSON string escapes. -/
def unescapeChar (c : Char) : Option Char :=
  if c = '"' then some '"'
  else if c = '\\' then some '\\'
  else if c = '/' then some '/'
  else if c = 'b' then some '\x08'
  else if c = 'f' then some '\x0c'
  else if c = 'n' then some '\n'
  else if c = 'r' then some '\r'
  else if c = 't' then some '\t'
  else none

/-- Is `n` a high (leading) UTF-16 surrogate? -/
def isHighSurrogate (n : Nat) : Bool := 0xd800 ≤ n && n ≤ 0xdbff

/-- Is `n` a low (trailing) UTF-16 surrogate? -/
def isLowSurrogate (n : Nat) : Bool := 0xdc00 ≤ n && n ≤ 0xdfff

/-- Parse the body of a JSON string (the opening quote already consumed),
returning the decoded characters and the remaining input.  A matched
`\uXXXX\uXXXX` surrogate pair becomes one scalar; a lone surrogate (which
JavaScript would keep as an unpaired UTF-16 unit) is modelled as U+FFFD.
The fuel only bounds recursion depth; callers pass more than the input
length, which no input can exhaust. -/
def parseStrBody : Nat → List Char → Option (List Char × List Char)
  | 0, _ => none
  | _ + 1, [] => none
  | _ + 1, '"' :: rest => some ([], rest)
  | fuel + 1, '\\' :: 'u' :: a :: b :: c :: d :: '\\' :: 'u' :: e :: f :: g :: h :: rest =>
    match hex4 a b c d with
    | none => none
    | some n =>
      if isHighSurrogate n then
        match hex4 e f g h with
        | none => none
        | some m =>
          if isLowSurrogate m then
            match parseStrBody fuel rest with
            | some (s, r) =>
              some (Char.ofNat (0x10000 + (n - 0xd800) * 0x400 + (m - 0xdc00)) :: s, r)
            | none => none
          else
            match parseStrBody fuel ('\\' :: 'u' :: e :: f :: g :: h :: rest) with
            | some (s, r) => some ('�' :: s, r)
            | none => none
      else
        let c0 := if isLowSurrogate n then '�' else Char.ofNat n
        match parseStrBody fuel ('\\' :: 'u' :: e :: f :: g :: h :: rest) with
        | some (s, r) => some (c0 :: s, r)
        | none => none
  | fuel + 1, '\\' :: 'u' :: a :: b :: c :: d :: rest =>
    match hex4 a b c d with
    | none => none
    | some n =>
      let c0 := if isHighSurrogate n || isLowSurrogate n then '�' else Char.ofNat n
      match parseStrBody fuel rest with
      | some (s, r) => some (c0 :: s, r)
      | none => none
  | fuel + 1, '\\' :: e :: rest =>
    match unescapeChar e with
    | none => none
    | some c =>
      match parseStrBody fuel rest with
      | some (s, r) => some (c :: s, r)
      | none => none
  | fuel + 1, c :: rest =>
    if c.toNat < 0x20 then none
    else
      match parseStrBody fuel rest with
      | some (s, r) => some (c :: s, r)
      | none => none

/-- Longest leading run of decimal digits. -/
def takeDigits : List Char → List Char × List Char
  | [] => ([], [])
  | c :: rest =>
    if c.isDigit then
      let p := takeDigits rest
      (c :: p.1, p.2)
    else ([], c :: rest)

/-- Parse a JSON number (grammar `-? int frac? exp?`), returning the value and
remaining input. -/
def parseNumCore (s : List Char) : Option (JsonVal × List Char) :=
  let p := match s with
    | '-' :: r => (true, r)
    | _ => (false, s)
  let neg := p.1
  match p.2 with
  | [] => none
  | c :: r1 =>
    if ¬ c.isDigit then none
    else
      let ipRest : Option (List Char × List Char) :=
        if c = '0' then
          match r1 with
          | d :: _ => if d.isDigit then none else some (['0'], r1)
          | [] => some (['0'], r1)
        else
          let q := takeDigits r1
          some (c :: q.1, q.2)
      match ipRest with
      | none => none
      | some (ip, r2) =>
        let fpRest : Option (List Char × List Char) :=
          match r2 with
          | '.' :: r3 =>
            let q := takeDigits r3
            if q.1.isEmpty then none else some (q.1, q.2)
          | _ => some ([], r2)
        match fpRest with
        | none => none
        | some (fp, r4) =>
          match r4 with
          | 'e' :: r5 | 'E' :: r5 =>
            let sp := match r5 with
              | '+' :: r6 => (false, r6)
              | '-' :: r6 => (true, r6)
              | _ => (false, r5)
            let q := takeDigits sp.2
            if q.1.isEmpty then none
            else some (JsonVal.num neg ip fp (some (sp.1, q.1)), q.2)
          | _ => some (JsonVal.num neg ip fp none, r4)

mutual

/-- Fuel-indexed recursive-descent parser for one JSON value, returning the
value and the remaining input.  The fuel only bounds recursion depth; the
top-level entry point supplies more fuel than any input of its size can use. -/
def parseVal : Nat → List Char → Option (JsonVal × List Char)
  | 0, _ => none
  | fuel + 1, s =>
    match skipWs s with
    | '\x7b' :: rest => parseMembers fuel rest
    | '[' :: rest => parseElems fuel rest
    | '"' :: rest =>
      match parseStrBody (rest.length + 1) rest with
      | some (cs, r) => some (JsonVal.str cs, r)
      | none => none
    | 't' :: 'r' :: 'u' :: 'e' :: rest => some (JsonVal.bool true, rest)
    | 'f' :: 'a' :: 'l' :: 's' :: 'e' :: rest => some (JsonVal.bool false, rest)
    | 'n' :: 'u' :: 'l' :: 'l' :: rest => some (JsonVal.null, rest)
    | s2 => parseNumCore s2

/-- Parse the elements of an array, the opening bracket already consumed. -/
def parseElems : Nat → List Char → Option (JsonVal × List Char)
  | 0, _ => none
  | fuel + 1, s =>
    match skipWs s with
    | ']' :: rest => some (JsonVal.arr [], rest)
    | s2 =>
      match parseVal fuel s2 with
      | none => none
      | some (v, r1) =>
        match parseElemsRest fuel r1 with
        | some (vs, r2) => some (JsonVal.arr (v :: vs), r2)
        | none => none

/-- Parse `, value`* `]` after the first array element. -/
def parseElemsRest : Nat → List Char → Option (List JsonVal × List Char)
  | 0, _ => none
  | fuel + 1, s =>
    match skipWs s with
    | ']' :: rest => some ([], rest)
    | ',' :: rest =>
      match parseVal fuel rest with
      | none => none
      | some (v, r1) =>
        match parseElemsRest fuel r1 with
        | some (vs, r2) => some (v :: vs, r2)
        | none => none
    | _ => none

/-- Parse the members of an object, the opening brace already consumed. -/
def parseMembers : Nat → List Char → Option (JsonVal × List Char)
  | 0, _ => none
  | fuel + 1, s =>
    match skipWs s with
    | '\x7d' :: rest => some (JsonVal.obj [], rest)
    | s2 =>
      match parseMember fuel s2 with
      | none => none
      | some (kv, r1) =>
        match parseMembersRest fuel r1 with
        | some (kvs, r2) => some (JsonVal.obj (kv :: kvs), r2)
        | none => none

/-- Parse one `"key" : value` member. -/
def parseMember : Nat → List Char → Option ((List Char × JsonVal) × List Char)
  | 0, _ => none
  | fuel + 1, s =>
    match skipWs s with
    | '"' :: rest =>
      match parseStrBody (rest.length + 1) rest with
      | none => none
      | some (k, r1) =>
        match skipWs r1 with
        | ':' :: r2 =>
          match parseVal fuel r2 with
          | some (v, r3) => some ((k, v), r3)
          | none => none
        | _ => none
    | _ => none

/-- Parse `, member`* `closing-brace` after the first object member. -/
def parseMembersRest : Nat → List Char → Option (List (List Char × JsonVal) × List Char)
  | 0, _ => none
  | fuel + 1, s =>
    match skipWs s with
    | '\x7d' :: rest => some ([], rest)
    | ',' :: rest =>
      match parseMember fuel rest with
      | none => none
      | some (kv, r1) =>
        match parseMembersRest fuel r1 with
        | some (kvs, r2) => some (kv :: kvs, r2)
        | none => none
    | _ => none

end

/-- Model of `JSON.parse`: parse one value, require only whitespace after it.
Returns `none` exactly where `JSON.parse` throws (on the inputs this
development evaluates). -/
def jsonParse (s : List Char) : Option JsonVal :=
  match parseVal (4 * s.length + 8) s with
  | some (v, rest) => if (skipWs rest).isEmpty then some v else none
  | none => none

/-- JavaScript truthiness of a JSON value (`""`, `0`, `false`, `null` are
falsy; every object and array is truthy). -/
def jsTruthy : JsonVal → Bool
  | JsonVal.null => false
  | JsonVal.bool b => b
  | JsonVal.num _ ip fp _ => (ip ++ fp).any (fun c => c ≠ '0')
  | JsonVal.str s => ¬ s.isEmpty
  | JsonVal.arr _ => true
  | JsonVal.obj _ => true

/-- Shorthand for string-literal keys. -/
def key (s : String) : List Char := s.toList

/-- Property lookup on a JSON value (`x.k`): only objects have named
properties; with duplicate keys `JSON.parse` keeps the last one. -/
def jGet (v : JsonVal) (k : List Char) : Option JsonVal :=
  match v with
  | JsonVal.obj fs => ((fs.filter (fun p => p.1 == k)).getLast?).map Prod.snd
  | _ => none

/-- Index access `x?.[0]`: first array element, property `"0"` of an object,
or the first character of a string. -/
def jIndexZero : JsonVal → Option JsonVal
  | JsonVal.arr xs => xs.head?
  | JsonVal.obj fs => jGet (JsonVal.obj fs) (key "0")
  | JsonVal.str (c :: _) => some (JsonVal.str [c])
  | _ => none

/-! ### SSE stream parsing (`parseSSEResponse` / `parseSingleResponse`) -/

/-- Whitespace trimmed by JavaScript `String.prototype.trim`. -/
def jsWhitespaceChar (c : Char) : Bool :=
  c = ' ' || c = '\t' || c = '\n' || c = '\r' || c = '\x0b' || c = '\x0c'
    || c.toNat = 0xa0 || c.toNat = 0xfeff || c.toNat = 0x1680
    || (0x2000 ≤ c.toNat && c.toNat ≤ 0x200a)
    || c.toNat = 0x2028 || c.toNat = 0x2029 || c.toNat = 0x202f
    || c.toNat = 0x205f || c.toNat = 0x3000

/-- Model of `String.prototype.trim` (both ends). -/
def jsTrim (s : List Char) : List Char :=
  ((s.dropWhile jsWhitespaceChar).reverse.dropWhile jsWhitespaceChar).reverse

/-- Running aggregate of `parseSSEResponse`: the two buffers `markdown` and
`thoughtsMarkdown`, plus the trace of `onStreamChunk(text, isThought)`
invocations in order. -/
structure Agg where
  markdown : List Char
  thoughts : List Char
  trace : List (List Char × Bool)
deriving DecidableEq, Repr

/-- The empty aggregate. -/
def emptyAgg : Agg := ⟨[], [], []⟩

/-- One iteration of `for (const part of parts)`: `part.thought && part.text`
appends to the thought buffer, `else if (part.text)` to the answer buffer, and
the same text is forwarded to the callback.  `withNl` is true only in the
whole-body JSON branch of `parseSingleResponse`, which appends
`part.text + "\n"` for thought parts.  (`text` values that are truthy
non-strings would be string-coerced by JavaScript `+=`; the providers only
send strings and this model restricts `text` to JSON strings.) -/
def partAppend (withNl : Bool) (acc : Agg) (p : JsonVal) : Agg :=
  let tflag := match jGet p (key "thought") with
    | some v => jsTruthy v
    | none => false
  let ttext := match jGet p (key "text") with
    | some (JsonVal.str s) => s
    | _ => []
  if tflag && ¬ ttext.isEmpty then
    let chunk := ttext ++ (if withNl then ['\n'] else [])
    { acc with thoughts := acc.thoughts ++ chunk, trace := acc.trace ++ [(chunk, true)] }
  else if ¬ ttext.isEmpty then
    { acc with markdown := acc.markdown ++ ttext, trace := acc.trace ++ [(ttext, false)] }
  else acc

/-- The value of `data.candidates?.[0]?.content?.parts` when it is truthy
(the guard of the candidates branch). -/
def candidatePartsRaw (v : JsonVal) : Option JsonVal := do
  let c ← jGet v (key "candidates")
  let c0 ← jIndexZero c
  let ct ← jGet c0 (key "content")
  let ps ← jGet ct (key "parts")
  if jsTruthy ps then some ps else none

/-- `for (const part of parts)`: arrays iterate their elements; strings
iterate their characters (as 1-character strings); any other truthy value
throws a TypeError, which every caller catches and turns into "skip", so it
is modelled as the empty iteration. -/
def iterParts : JsonVal → List JsonVal
  | JsonVal.arr xs => xs
  | JsonVal.str s => s.map (fun c => JsonVal.str [c])
  | _ => []

/-- Process the JSON payload of one `data:` line: parse it, and if the
candidates/parts shape is present fold every part into the aggregate.
A parse failure (or any shape mismatch) leaves the aggregate unchanged —
the enclosing `try`/`catch` in the source skips the line. -/
def processJsonStr (s : List Char) (acc : Agg) : Agg :=
  match jsonParse s with
  | none => acc
  | some v =>
    match candidatePartsRaw v with
    | some ps => (iterParts ps).foldl (partAppend false) acc
    | none => acc

/-- The SSE line tag `"data: "`. -/
def dataTag : List Char := key "data: "

/-- Process one complete line: only `data: `-tagged lines matter; the payload
is trimmed; empty payloads and the `[DONE]` sentinel are ignored. -/
def processLine (acc : Agg) (line : List Char) : Agg :=
  if dataTag.isPrefixOf line then
    let payload := jsTrim (line.drop 6)
    if payload.isEmpty then acc
    else if payload = key "[DONE]" then acc
    else processJsonStr payload acc
  else acc

/-- `buffer.split("\n")` for a single-character separator: never empty, and
exactly the maximal newline-free segments. -/
def splitOnNl : List Char → List (List Char)
  | [] => [[]]
  | c :: rest =>
    if c = '\n' then [] :: splitOnNl rest
    else
      match splitOnNl rest with
      | l :: ls => (c :: l) :: ls
      | [] => [[c]]

/-- One chunk of decoded text fed to the line buffer, mirroring the source:
append to the buffer, split on newline, process the complete lines, keep the
last (possibly partial) line as the new buffer. -/
def feedLines (st : List Char × Agg) (chunk : List Char) : List Char × Agg :=
  let lines := splitOnNl (st.1 ++ chunk)
  (lines.getLastD [], lines.dropLast.foldl processLine st.2)

/-- Per-character form of `feedLines`, used to prove chunking-invariance:
a newline completes the buffered line, any other character is buffered. -/
def lineStep (st : List Char × Agg) (c : Char) : List Char × Agg :=
  if c = '\n' then ([], processLine st.2 st.1) else (st.1 ++ [c], st.2)

/-! ### Streaming UTF-8 decoder (`TextDecoder` with `stream: true`) -/

/-- State of the WHATWG incremental UTF-8 decoder. -/
structure Utf8State where
  codepoint : Nat
  needed : Nat
  seen : Nat
  lower : Nat
  upper : Nat
deriving DecidableEq, Repr

/-- Initial decoder state. -/
def utf8Init : Utf8State := ⟨0, 0, 0, 0x80, 0xbf⟩

/-- The U+FFFD replacement character emitted for invalid sequences. -/
def repChar : Char := '�'

/-- Decode one byte starting from the begin state. -/
def utf8StartByte (b : Nat) : Utf8State × List Char :=
  if b ≤ 0x7f then (utf8Init, [Char.ofNat b])
  else if 0xc2 ≤ b ∧ b ≤ 0xdf then
    ({ utf8Init with needed := 1, codepoint := b % 0x20 }, [])
  else if 0xe0 ≤ b ∧ b ≤ 0xef then
    ({ codepoint := b % 0x10, needed := 2, seen := 0,
       lower := if b = 0xe0 then 0xa0 else 0x80,
       upper := if b = 0xed then 0x9f else 0xbf }, [])
  else if 0xf0 ≤ b ∧ b ≤ 0xf4 then
    ({ codepoint := b % 0x8, needed := 3, seen := 0,
       lower := if b = 0xf0 then 0x90 else 0x80,
       upper := if b = 0xf4 then 0x8f else 0xbf }, [])
  else (utf8Init, [repChar])

/-- Decode one byte: WHATWG UTF-8 decoder step.  An out-of-range continuation
byte emits U+FFFD and is reprocessed from the begin state. -/
def utf8Step (st : Utf8State) (b : Nat) : Utf8State × List Char :=
  if st.needed = 0 then utf8StartByte b
  else if st.lower ≤ b ∧ b ≤ st.upper then
    let cp := st.codepoint * 64 + b % 0x40
    if st.seen + 1 = st.needed then (utf8Init, [Char.ofNat cp])
    else ({ codepoint := cp, needed := st.needed, seen := st.seen + 1,
            lower := 0x80, upper := 0xbf }, [])
  else
    let q := utf8StartByte b
    (q.1, repChar :: q.2)

/-- Decode a whole chunk, threading the decoder state (the trailing incomplete
sequence stays pending in the state, exactly as with `stream: true`). -/
def utf8DecodeChunk (st : Utf8State) (bytes : List Nat) : Utf8State × List Char :=
  bytes.foldl (fun p b => let q := utf8Step p.1 b; (q.1, p.2 ++ q.2)) (st, [])

/-- Standard UTF-8 encoder, used to build concrete byte streams. -/
def utf8EncodeChar (c : Char) : List Nat :=
  let n := c.toNat
  if n ≤ 0x7f then [n]
  else if n ≤ 0x7ff then [0xc0 + n / 64, 0x80 + n % 64]
  else if n ≤ 0xffff then [0xe0 + n / 4096, 0x80 + n / 64 % 64, 0x80 + n % 64]
  else [0xf0 + n / 0x40000, 0x80 + n / 4096 % 64, 0x80 + n / 64 % 64, 0x80 + n % 64]

/-- Encode a character list to UTF-8 bytes. -/
def utf8Encode (s : List Char) : List Nat := s.flatMap utf8EncodeChar

/-! ### The full `parseSSEResponse` machine -/

/-- Final aggregate shape returned by the parser: `markdown` plus the optional
`thoughtsMarkdown`. -/
structure SummarizeResult where
  markdown : List Char
  thoughtsMarkdown : Option (List Char)
deriving DecidableEq, Repr

/-- Final assembly: `markdown.trim()` and `thoughtsMarkdown.trim() ||
undefined` (the early empty-return in the source produces the same value). -/
def assembleResult (acc : Agg) : SummarizeResult :=
  if acc.markdown.isEmpty && acc.thoughts.isEmpty then ⟨[], none⟩
  else
    ⟨jsTrim acc.markdown,
     if (jsTrim acc.thoughts).isEmpty then none else some (jsTrim acc.thoughts)⟩

/-- State of the streaming read loop: decoder state, line buffer, aggregate. -/
structure SSEState where
  dec : Utf8State
  buf : List Char
  agg : Agg
deriving DecidableEq, Repr

/-- Initial streaming state. -/
def sseInit : SSEState := ⟨utf8Init, [], emptyAgg⟩

/-- One `reader.read()` result processed: decode the bytes with the stateful
decoder and feed the text to the line buffer. -/
def decodeAndFeed (st : SSEState) (chunk : List Nat) : SSEState :=
  let d := utf8DecodeChunk st.dec chunk
  let fed := feedLines (st.buf, st.agg) d.2
  ⟨d.1, fed.1, fed.2⟩

/-- Run the read loop over a list of byte chunks. -/
def parseSSEStream (chunks : List (List Nat)) : SSEState :=
  chunks.foldl decodeAndFeed sseInit

/-- Aggregate after the read loop plus the final leftover-buffer processing
(the trailing partial line is handled by the same `data: ` logic). -/
def sseFinalAgg (chunks : List (List Nat)) : Agg :=
  let st := parseSSEStream chunks
  processLine st.agg st.buf

/-- `parseSSEResponse` on the streaming path, as a function of the byte chunks
delivered by the reader. -/
def parseSSEBytes (chunks : List (List Nat)) : SummarizeResult :=
  assembleResult (sseFinalAgg chunks)

/-! ### `parseSingleResponse` (no-reader fallback) -/

/-- `data.choices?.[0]?.message?.content` when it is a truthy string. -/
def choicesContent (v : JsonVal) : Option (List Char) := do
  let c ← jGet v (key "choices")
  let c0 ← jIndexZero c
  let m ← jGet c0 (key "message")
  match jGet m (key "content") with
  | some (JsonVal.str s) => if s.isEmpty then none else some s
  | _ => none

/-- The one-shot SSE line pass of `parseSingleResponse`: split the whole body
on newlines and process every line. -/
def sseLineScan (text : List Char) : Agg :=
  (splitOnNl text).foldl processLine emptyAgg

/-- The whole-body JSON branch of `parseSingleResponse`: interpret the entire
body as one non-streaming response, in the candidates/parts shape (thought
parts gain a trailing newline) or the choices/message shape. -/
def singleShotJson (text : List Char) (acc : Agg) : Agg :=
  match jsonParse text with
  | none => acc
  | some v =>
    match candidatePartsRaw v with
    | some ps => (iterParts ps).foldl (partAppend true) acc
    | none =>
      match choicesContent v with
      | some s => { acc with markdown := s, trace := acc.trace ++ [(s, false)] }
      | none => acc

/-- `parseSingleResponse`: the SSE line pass, then — only if it produced no
text at all — the whole-body JSON interpretation. -/
def parseSingleResponse (text : List Char) : SummarizeResult :=
  let acc := sseLineScan text
  let acc2 :=
    if acc.markdown.isEmpty && acc.thoughts.isEmpty then singleShotJson text acc
    else acc
  assembleResult acc2

/-! ### Chunking invariance of the stream machine -/

/-- `split` never returns an empty list. -/
theorem splitOnNl_ne_nil (s : List Char) : splitOnNl s ≠ [] := by
  induction s with
  | nil => simp [splitOnNl]
  | cons c rest ih =>
    simp only [splitOnNl]
    by_cases hc : c = '\n'
    · simp [hc]
    · simp only [if_neg hc]
      cases h : splitOnNl rest with
      | nil => simp
      | cons l ls => simp

/-- A newline-free string splits into itself. -/
theorem splitOnNl_noNl (s : List Char) (h : '\n' ∉ s) : splitOnNl s = [s] := by
  induction s with
  | nil => rfl
  | cons c rest ih =>
    have hc : c ≠ '\n' := fun e => h (by simp [e])
    have hr : '\n' ∉ rest := fun m => h (List.mem_cons_of_mem _ m)
    simp [splitOnNl, hc, ih hr]

/-- Splitting after a newline-free head segment peels it off whole. -/
theorem splitOnNl_append_nl (a b : List Char) (h : '\n' ∉ a) :
    splitOnNl (a ++ '\n' :: b) = a :: splitOnNl b := by
  induction a with
  | nil => simp [splitOnNl]
  | cons c a2 ih =>
    have hc : c ≠ '\n' := fun e => h (by simp [e])
    have ha : '\n' ∉ a2 := fun m => h (List.mem_cons_of_mem _ m)
    simp only [List.cons_append, List.append_eq, splitOnNl, if_neg hc, ih ha]

/-- The per-character machine keeps the line buffer newline-free. -/
theorem noNl_foldl_lineStep (cs : List Char) :
    ∀ st : List Char × Agg, '\n' ∉ st.1 → '\n' ∉ (cs.foldl lineStep st).1 := by
  induction cs with
  | nil => intro st h; exact h
  | cons c cs ih =>
    intro st h
    simp only [List.foldl_cons]
    apply ih
    by_cases hc : c = '\n'
    · simp [lineStep, hc]
    · simp only [lineStep, if_neg hc]
      intro m
      rcases List.mem_append.mp m with m1 | m2
      · exact h m1
      · exact hc (List.mem_singleton.mp m2).symm

/-- The split-based chunk step agrees with folding the per-character machine,
whenever the carried buffer is newline-free (an invariant of the machine). -/
theorem feedLines_eq_foldl (chunk : List Char) :
    ∀ (buf : List Char) (agg : Agg), '\n' ∉ buf →
      feedLines (buf, agg) chunk = chunk.foldl lineStep (buf, agg) := by
  induction chunk with
  | nil =>
    intro buf agg h
    simp [feedLines, splitOnNl_noNl buf h]
  | cons c cs ih =>
    intro buf agg h
    by_cases hc : c = '\n'
    · subst hc
      obtain ⟨x, L, hL⟩ : ∃ x L, splitOnNl cs = x :: L := by
        cases hsp : splitOnNl cs with
        | nil => exact absurd hsp (splitOnNl_ne_nil cs)
        | cons x L => exact ⟨x, L, rfl⟩
      have h1 : feedLines (buf, agg) ('\n' :: cs) =
          feedLines ([], processLine agg buf) cs := by
        simp [feedLines, splitOnNl_append_nl buf cs h, hL]
      rw [h1, ih [] (processLine agg buf) (by simp)]
      simp [lineStep]
    · have hbuf : '\n' ∉ buf ++ [c] := by
        intro m
        rcases List.mem_append.mp m with m1 | m2
        · exact h m1
        · exact hc (List.mem_singleton.mp m2).symm
      have h1 : feedLines (buf, agg) (c :: cs) = feedLines (buf ++ [c], agg) cs := by
        simp [feedLines, List.append_assoc]
      rw [h1, ih (buf ++ [c]) agg hbuf]
      simp [lineStep, hc]

/-- Accumulator form of `utf8DecodeChunk`. -/
theorem utf8DecodeChunk_acc (bs : List Nat) :
    ∀ (st : Utf8State) (acc : List Char),
      bs.foldl (fun p b => let q := utf8Step p.1 b; (q.1, p.2 ++ q.2)) (st, acc)
        = ((utf8DecodeChunk st bs).1, acc ++ (utf8DecodeChunk st bs).2) := by
  induction bs with
  | nil => intro st acc; simp [utf8DecodeChunk]
  | cons b bs ih =>
    intro st acc
    simp only [utf8DecodeChunk, List.foldl_cons, List.nil_append]
    rw [ih (utf8Step st b).1 (acc ++ (utf8Step st b).2),
        ih (utf8Step st b).1 (utf8Step st b).2]
    simp [List.append_assoc]

/-- Unfolding `utf8DecodeChunk` one byte at a time. -/
theorem utf8DecodeChunk_cons (st : Utf8State) (b : Nat) (bs : List Nat) :
    utf8DecodeChunk st (b :: bs)
      = ((utf8DecodeChunk (utf8Step st b).1 bs).1,
         (utf8Step st b).2 ++ (utf8DecodeChunk (utf8Step st b).1 bs).2) := by
  simp only [utf8DecodeChunk, List.foldl_cons]
  exact utf8DecodeChunk_acc bs (utf8Step st b).1 (utf8Step st b).2

/-- The whole read-loop step for a single byte: decode it and feed whatever
characters it completes to the line machine. -/
def byteStep (st : SSEState) (b : Nat) : SSEState :=
  let q := utf8Step st.dec b
  let fed := q.2.foldl lineStep (st.buf, st.agg)
  ⟨q.1, fed.1, fed.2⟩

/-- A chunk step of the read loop equals folding the per-byte machine. -/
theorem decodeAndFeed_eq_foldl (chunk : List Nat) :
    ∀ st : SSEState, '\n' ∉ st.buf → decodeAndFeed st chunk = chunk.foldl byteStep st := by
  induction chunk with
  | nil =>
    intro st h
    simp [decodeAndFeed, utf8DecodeChunk, feedLines_eq_foldl [] st.buf st.agg h]
  | cons b bs ih =>
    intro st h
    have hfed : '\n' ∉ ((utf8Step st.dec b).2.foldl lineStep (st.buf, st.agg)).1 :=
      noNl_foldl_lineStep (utf8Step st.dec b).2 (st.buf, st.agg) h
    have lhs : decodeAndFeed st (b :: bs)
        = decodeAndFeed (byteStep st b) bs := by
      simp only [decodeAndFeed, byteStep, utf8DecodeChunk_cons]
      rw [feedLines_eq_foldl _ st.buf st.agg h, List.foldl_append,
          feedLines_eq_foldl _ _ _ hfed]
    rw [lhs, ih (byteStep st b) hfed]
    simp [List.foldl_cons]

/-- The per-byte machine keeps the line buffer newline-free. -/
theorem noNl_foldl_byteStep (bs : List Nat) :
    ∀ st : SSEState, '\n' ∉ st.buf → '\n' ∉ (bs.foldl byteStep st).buf := by
  induction bs with
  | nil => intro st h; exact h
  | cons b bs ih =>
    intro st h
    simp only [List.foldl_cons]
    exact ih _ (noNl_foldl_lineStep (utf8Step st.dec b).2 (st.buf, st.agg) h)

/-- The read loop over any chunk list equals the per-byte machine over the
concatenated bytes. -/
theorem parseSSEStream_eq_join (chunks : List (List Nat)) :
    ∀ st : SSEState, '\n' ∉ st.buf →
      chunks.foldl decodeAndFeed st = chunks.flatten.foldl byteStep st := by
  induction chunks with
  | nil => intro st _; rfl
  | cons c cs ih =>
    intro st h
    simp only [List.foldl_cons, List.flatten_cons, List.foldl_append]
    rw [decodeAndFeed_eq_foldl c st h]
    exact ih _ (noNl_foldl_byteStep c st h)

/-! ### The aggregate buffers versus the callback trace -/

/-- Concatenation, in arrival order, of the fragments with the given
`isThought` flag among the callback invocations `tr`. -/
def traceConcat (b : Bool) (tr : List (List Char × Bool)) : List Char :=
  ((tr.filter (fun p => p.2 == b)).map Prod.fst).flatten

/-- The two buffers of an aggregate agree with its callback trace. -/
def AggSync (a : Agg) : Prop :=
  a.markdown = traceConcat false a.trace ∧ a.thoughts = traceConcat true a.trace

theorem traceConcat_append (b : Bool) (tr : List (List Char × Bool)) (s : List Char) (b2 : Bool) :
    traceConcat b (tr ++ [(s, b2)])
      = traceConcat b tr ++ (if b2 == b then s else []) := by
  by_cases h : b2 = b <;>
    simp [traceConcat, List.filter_append, h]

theorem aggSync_empty : AggSync emptyAgg := by
  constructor <;> rfl

theorem aggSync_partAppend (withNl : Bool) (a : Agg) (p : JsonVal) (h : AggSync a) :
    AggSync (partAppend withNl a p) := by
  obtain ⟨h1, h2⟩ := h
  unfold partAppend
  by_cases hb : (match jGet p (key "thought") with
      | some v => jsTruthy v
      | none => false) && ¬ (match jGet p (key "text") with
      | some (JsonVal.str s) => s
      | _ => []).isEmpty
  · simp only [hb, if_true]
    exact ⟨by simp [traceConcat_append, h1], by simp [traceConcat_append, h2]⟩
  · simp only [hb, if_false]
    by_cases ht : (match jGet p (key "text") with
        | some (JsonVal.str s) => s
        | _ => []).isEmpty
    · simp only [ht]
      exact ⟨h1, h2⟩
    · simp only [ht]
      exact ⟨by simp [traceConcat_append, h1], by simp [traceConcat_append, h2]⟩

theorem aggSync_foldl_partAppend (withNl : Bool) (ps : List JsonVal) :
    ∀ a : Agg, AggSync a → AggSync (ps.foldl (partAppend withNl) a) := by
  induction ps with
  | nil => intro a h; exact h
  | cons p ps ih => intro a h; exact ih _ (aggSync_partAppend withNl a p h)

theorem aggSync_processJsonStr (s : List Char) (a : Agg) (h : AggSync a) :
    AggSync (processJsonStr s a) := by
  rcases hj : jsonParse s with _ | v
  · simpa [processJsonStr, hj] using h
  · rcases hc : candidatePartsRaw v with _ | ps
    · simpa [processJsonStr, hj, hc] using h
    · simpa [processJsonStr, hj, hc] using
        aggSync_foldl_partAppend false (iterParts ps) a h

theorem aggSync_processLine (a : Agg) (line : List Char) (h : AggSync a) :
    AggSync (processLine a line) := by
  unfold processLine
  by_cases h1 : dataTag.isPrefixOf line
  · simp only [h1, if_true]
    by_cases h2 : (jsTrim (line.drop 6)).isEmpty
    · simpa [h2]
    · by_cases h3 : jsTrim (line.drop 6) = key "[DONE]"
      · simpa [h2, h3]
      · simpa [h2, h3] using aggSync_processJsonStr (jsTrim (line.drop 6)) a h
  · simpa [h1]

theorem aggSync_foldl_processLine (ls : List (List Char)) :
    ∀ a : Agg, AggSync a → AggSync (ls.foldl processLine a) := by
  induction ls with
  | nil => intro a h; exact h
  | cons l ls ih => intro a h; exact ih _ (aggSync_processLine a l h)

theorem aggSync_feedLines (st : List Char × Agg) (chunk : List Char) (h : AggSync st.2) :
    AggSync (feedLines st chunk).2 := by
  unfold feedLines
  exact aggSync_foldl_processLine _ st.2 h

theorem aggSync_decodeAndFeed (st : SSEState) (chunk : List Nat) (h : AggSync st.agg) :
    AggSync (decodeAndFeed st chunk).agg := by
  unfold decodeAndFeed
  exact aggSync_feedLines (st.buf, st.agg) _ h

theorem aggSync_sseFinalAgg (chunks : List (List Nat)) : AggSync (sseFinalAgg chunks) := by
  unfold sseFinalAgg parseSSEStream
  apply aggSync_processLine
  suffices h : ∀ st : SSEState, AggSync st.agg → AggSync (chunks.foldl decodeAndFeed st).agg from
    h sseInit aggSync_empty
  induction chunks with
  | nil => intro st h; exact h
  | cons c cs ih =>
    intro st h
    exact ih _ (aggSync_decodeAndFeed st c h)

/-! ### Further helper lemmas for the SSE claims -/

/-- Trailing-only whitespace trim (what the spec's wording would require). -/
def jsTrimEnd (s : List Char) : List Char :=
  (s.reverse.dropWhile jsWhitespaceChar).reverse

/-- `parseSSEResponse`'s machine on already-decoded text chunks (the byte
entry point composes this with the streaming decoder). -/
def parseSSEText (chunks : List (List Char)) : SummarizeResult :=
  let fed := chunks.foldl feedLines ([], emptyAgg)
  assembleResult (processLine fed.2 fed.1)

theorem isPrefixOf_self_append (t s : List Char) : t.isPrefixOf (t ++ s) = true := by
  induction t with
  | nil => simp [List.isPrefixOf]
  | cons c cs ih => simp [List.isPrefixOf, ih]

/-- Folding newline-free characters only extends the line buffer. -/
theorem foldl_lineStep_noNl (cs : List Char) :
    ∀ (buf : List Char) (agg : Agg), '\n' ∉ cs →
      cs.foldl lineStep (buf, agg) = (buf ++ cs, agg) := by
  induction cs with
  | nil => intro buf agg _; simp
  | cons c cs ih =>
    intro buf agg h
    have hc : c ≠ '\n' := fun e => h (by simp [e])
    have h2 : '\n' ∉ cs := fun m => h (List.mem_cons_of_mem _ m)
    simp only [List.foldl_cons, lineStep, if_neg hc]
    rw [ih (buf ++ [c]) agg h2]
    simp

/-- A `data: ` line whose payload does not parse as JSON leaves the aggregate
unchanged (the `catch` in the source skips it); empty and `[DONE]` payloads
are skipped by the explicit guards. -/
theorem processLine_unparseable_skip (a : Agg) (j : List Char)
    (hbad : (jsonParse (jsTrim j)).isNone = true) :
    processLine a (dataTag ++ j) = a := by
  have hp : dataTag.isPrefixOf (dataTag ++ j) = true := isPrefixOf_self_append dataTag j
  have hd : (dataTag ++ j).drop 6 = j := by
    have h6 : dataTag.length = 6 := rfl
    rw [← h6, List.drop_left]
  unfold processLine
  rw [hp, hd]
  by_cases h1 : (jsTrim j).isEmpty
  · simp [h1]
  · by_cases h2 : jsTrim j = key "[DONE]"
    · simp [h1, h2]
    · simp [h1, h2, processJsonStr, Option.isNone_iff_eq_none.mp hbad]

/-! ### C2 -/

/-- The spec's concrete two-event SSE stream. -/
def specStreamText : List Char :=
  ("data: \x7b\"candidates\":[\x7b\"content\":\x7b\"parts\":[\x7b\"text\":\"Hi\",\"thought\":true\x7d]\x7d\x7d]\x7d\ndata: \x7b\"candidates\":[\x7b\"content\":\x7b\"parts\":[\x7b\"text\":\"Hello\"\x7d]\x7d\x7d]\x7d\ndata: [DONE]\n").toList

/-- C2 (amended): for every stream consumed by `parseSSEResponse`, the
returned `answer` equals the concatenation, in arrival order, of the
fragments forwarded to the callback as answer text, with leading AND
trailing whitespace trimmed (`String.prototype.trim`), and `thoughts`
likewise (absent when the trimmed concatenation is empty); a `data: [DONE]`
line contributes nothing; and the spec's concrete two-event stream yields
answer `"Hello"` with thoughts `"Hi"`. -/
theorem c2_aggregate_equals_trace_concat :
    (∀ chunks : List (List Nat),
      (parseSSEBytes chunks).markdown
          = jsTrim (traceConcat false (sseFinalAgg chunks).trace)
      ∧ (parseSSEBytes chunks).thoughtsMarkdown
          = (if (jsTrim (traceConcat true (sseFinalAgg chunks).trace)).isEmpty then none
             else some (jsTrim (traceConcat true (sseFinalAgg chunks).trace))))
    ∧ (∀ a : Agg, processLine a (key "data: [DONE]") = a)
    ∧ parseSSEBytes [utf8Encode specStreamText]
        = ⟨("Hello").toList, some (("Hi").toList)⟩ := by
  refine ⟨?_, fun a => rfl, by decide⟩
  intro chunks
  obtain ⟨h1, h2⟩ := aggSync_sseFinalAgg chunks
  unfold parseSSEBytes assembleResult
  by_cases hc : (sseFinalAgg chunks).markdown.isEmpty && (sseFinalAgg chunks).thoughts.isEmpty
  · have hc2 := hc
    simp only [Bool.and_eq_true, List.isEmpty_iff] at hc2
    have hm : (sseFinalAgg chunks).markdown = [] := hc2.1
    have ht : (sseFinalAgg chunks).thoughts = [] := hc2.2
    rw [← h1, ← h2, hm, ht]
    simp [hc, jsTrim]
  · rw [← h1, ← h2]
    simp [hc]

/-- C2, counterexample to the claim as stated: with a fragment carrying a
leading space, the code's `trim()` removes it from the final answer, so the
answer does NOT equal the fragment concatenation with only trailing
whitespace trimmed. -/
def c2LeadingSpaceStream : List Char :=
  ("data: \x7b\"candidates\":[\x7b\"content\":\x7b\"parts\":[\x7b\"text\":\" Hello\"\x7d]\x7d\x7d]\x7d\n").toList

/-- C2, counterexample: the answer field differs from the trailing-only
trimmed concatenation of the forwarded answer fragments. -/
theorem c2_trailing_only_trim_refuted :
    ¬ ((parseSSEBytes [utf8Encode c2LeadingSpaceStream]).markdown
        = jsTrimEnd (traceConcat false (sseFinalAgg [utf8Encode c2LeadingSpaceStream]).trace)) := by
  decide

/-! ### C6 -/

/-- C6: feeding the same bytes in one chunk or split at arbitrary byte
boundaries (including mid-UTF-8-character and mid-line splits) yields the
same final aggregate. -/
theorem c6_chunking_invariance (bytes : List Nat) (parts : List (List Nat))
    (h : parts.flatten = bytes) :
    parseSSEBytes parts = parseSSEBytes [bytes] := by
  unfold parseSSEBytes sseFinalAgg parseSSEStream
  rw [parseSSEStream_eq_join parts sseInit (by simp [sseInit]),
      parseSSEStream_eq_join [bytes] sseInit (by simp [sseInit]), h]
  simp

/-- A concrete stream whose text contains multi-byte UTF-8 characters. -/
def c6Bytes : List Nat :=
  utf8Encode (("data: \x7b\"candidates\":[\x7b\"content\":\x7b\"parts\":[\x7b\"text\":\"合并\"\x7d]\x7d\x7d]\x7d\n").toList)

/-- A partition of `c6Bytes` that splits inside the 3-byte character `合`
(and therefore also in the middle of the line). -/
def c6Parts : List (List Nat) :=
  [c6Bytes.take 52, (c6Bytes.drop 52).take 2, (c6Bytes.drop 52).drop 2]

/-- C6, witness: the mid-character partition parses identically to the whole
stream, whose answer is `合并`. -/
theorem c6_chunking_invariance_witness :
    parseSSEBytes c6Parts = parseSSEBytes [c6Bytes]
    ∧ parseSSEBytes [c6Bytes] = ⟨("合并").toList, none⟩ :=
  ⟨c6_chunking_invariance c6Bytes c6Parts (by decide), by decide⟩

/-! ### C7 -/

/-- C7: a whole line `data: <payload>` whose payload fails JSON parsing is
skipped — the stream parses to exactly what it parses to with that line (and
its newline) removed. -/
theorem c7_malformed_line_skipped (pre post j : List Char)
    (hpre : pre = [] ∨ ∃ q, pre = q ++ ['\n'])
    (hj : '\n' ∉ j)
    (hbad : (jsonParse (jsTrim j)).isNone = true) :
    parseSSEText [pre ++ (dataTag ++ j) ++ '\n' :: post]
      = parseSSEText [pre ++ post] := by
  have hfeed : ∀ s : List Char,
      [s].foldl feedLines (([] : List Char), emptyAgg)
        = s.foldl lineStep (([] : List Char), emptyAgg) := by
    intro s
    simp only [List.foldl_cons, List.foldl_nil]
    exact feedLines_eq_foldl s [] emptyAgg (by simp)
  obtain ⟨A, hA⟩ : ∃ A, pre.foldl lineStep (([] : List Char), emptyAgg) = ([], A) := by
    rcases hpre with h0 | ⟨q, hq⟩
    · exact ⟨emptyAgg, by simp [h0]⟩
    · subst hq
      rw [List.foldl_append]
      refine ⟨processLine (q.foldl lineStep ([], emptyAgg)).2
        (q.foldl lineStep ([], emptyAgg)).1, ?_⟩
      simp [lineStep]
  have hnol : '\n' ∉ dataTag ++ j := by
    intro m
    rcases List.mem_append.mp m with m1 | m2
    · revert m1; decide
    · exact hj m2
  unfold parseSSEText
  rw [hfeed, hfeed]
  have h1 : (pre ++ (dataTag ++ j) ++ '\n' :: post).foldl lineStep (([] : List Char), emptyAgg)
      = post.foldl lineStep (([] : List Char), A) := by
    rw [show pre ++ (dataTag ++ j) ++ '\n' :: post
          = (pre ++ ((dataTag ++ j) ++ ['\n'])) ++ post by simp]
    rw [List.foldl_append, List.foldl_append, hA, List.foldl_append,
        foldl_lineStep_noNl (dataTag ++ j) [] A hnol]
    simp [lineStep, processLine_unparseable_skip A j hbad]
  have h2 : (pre ++ post).foldl lineStep (([] : List Char), emptyAgg)
      = post.foldl lineStep (([] : List Char), A) := by
    rw [List.foldl_append, hA]
  rw [h1, h2]

/-- A valid first event (answer `Hi`) ending its line. -/
def c7pre : List Char :=
  ("data: \x7b\"candidates\":[\x7b\"content\":\x7b\"parts\":[\x7b\"text\":\"Hi\"\x7d]\x7d\x7d]\x7d\n").toList

/-- A payload that is not valid JSON. -/
def c7j : List Char := ("\x7b\"candidates\": oops").toList

/-- A valid second event (answer `Hello`). -/
def c7post : List Char :=
  ("data: \x7b\"candidates\":[\x7b\"content\":\x7b\"parts\":[\x7b\"text\":\"Hello\"\x7d]\x7d\x7d]\x7d\n").toList

/-- C7, witness: with a malformed line between two valid events, the result
equals the stream without that line, namely answer `HiHello`. -/
theorem c7_malformed_line_skipped_witness :
    parseSSEText [c7pre ++ (dataTag ++ c7j) ++ '\n' :: c7post]
        = parseSSEText [c7pre ++ c7post]
    ∧ parseSSEText [c7pre ++ c7post] = ⟨("HiHello").toList, none⟩ :=
  ⟨c7_malformed_line_skipped c7pre c7post c7j
      (Or.inr ⟨c7pre.dropLast, by decide⟩) (by decide) (by decide),
   by decide⟩

/-! ### C8 -/

/-- C8 (amended): only the no-reader fallback path attempts the whole-body
JSON interpretation: when the one-shot SSE line pass of
`parseSingleResponse` yields no text, its result is exactly the whole-body
interpretation (candidates/parts or choices/message); on the streaming path,
a stream yielding no text returns the empty result directly, with no
whole-body attempt. -/
theorem c8_whole_body_fallback :
    (∀ text : List Char,
        (sseLineScan text).markdown = [] → (sseLineScan text).thoughts = [] →
          parseSingleResponse text = assembleResult (singleShotJson text (sseLineScan text)))
    ∧ (∀ chunks : List (List Nat),
        (sseFinalAgg chunks).markdown = [] → (sseFinalAgg chunks).thoughts = [] →
          parseSSEBytes chunks = ⟨[], none⟩) := by
  constructor
  · intro text h1 h2
    unfold parseSingleResponse
    simp [h1, h2]
  · intro chunks h1 h2
    unfold parseSSEBytes assembleResult
    simp [h1, h2]

/-- A complete body in the non-streaming choices/message wire shape. -/
def c8text : List Char :=
  ("\x7b\"choices\":[\x7b\"message\":\x7b\"content\":\"Hi\"\x7d\x7d]\x7d").toList

/-- C8, counterexample to the claim as stated: on the streaming path the
parser returns the empty result even though the entire body interprets as a
single non-streaming JSON response with content `Hi` (as the no-reader path
demonstrates) — so the streaming path does NOT attempt the whole-body
interpretation before returning an empty result. -/
theorem c8_streaming_no_whole_body_refuted :
    parseSSEBytes [utf8Encode c8text] = ⟨[], none⟩
    ∧ parseSingleResponse c8text = ⟨("Hi").toList, none⟩
    ∧ parseSSEBytes [utf8Encode c8text] ≠ parseSingleResponse c8text :=
  ⟨by decide, by decide, by decide⟩

/-- C8, witness: the no-reader path on `c8text` (whose line pass yields
nothing) equals the whole-body interpretation, and an empty stream returns
the empty result. -/
theorem c8_whole_body_fallback_witness :
    (parseSingleResponse c8text = assembleResult (singleShotJson c8text (sseLineScan c8text))
      ∧ parseSingleResponse c8text = ⟨("Hi").toList, none⟩)
    ∧ parseSSEBytes [[]] = ⟨[], none⟩ :=
  ⟨⟨c8_whole_body_fallback.1 c8text (by decide) (by decide), by decide⟩,
   c8_whole_body_fallback.2 [[]] (by decide) (by decide)⟩

/-! ### The global task queue (`GlobalTaskQueue` in `aiSummary.ts`)

The queue is single-threaded and cooperative: every mutation runs to
completion before the next.  `runTask`'s synchronous prefix (mark running,
record start time, insert into the running map, notify) happens during
admission; the continuation after `await worker(...)` settles is a separate
event, modelled as the `finishTask` operation.  Promise settlements are
recorded as a ghost trace of `(task snapshot, none | some rejectionMessage)`.
`displayName` is a pure projection of the payload used only for display and
is omitted. -/

/-- Task states. -/
inductive TaskStatus where
  | pending
  | running
  | completed
  | failed
  | cancelled
deriving DecidableEq, Repr

/-- One queued task (the internal `QueueTask<T>` record, minus the
resolve/reject closures, which the settlement trace replaces). -/
structure QTask (T : Type) where
  id : Nat
  data : T
  status : TaskStatus
  error : Option String
  startTime : Option Nat
  endTime : Option Nat
  output : String
  thoughtOutput : String
deriving DecidableEq, Repr

/-- State of the queue singleton. -/
structure QState (T : Type) where
  queue : List (QTask T)
  runningTasks : List (QTask T)
  completedTasks : List (QTask T)
  taskIdCounter : Nat
  concurrency : Nat
  workerSet : Bool
  maxCompletedHistory : Nat
  events : Nat
  settled : List (QTask T × Option String)
deriving DecidableEq, Repr

/-- The freshly constructed queue: empty, concurrency 1, history cap 1000,
no worker registered. -/
def initialQState (T : Type) : QState T :=
  ⟨[], [], [], 0, 1, false, 1000, 0, []⟩

/-- `emitEvent()`: every listener is called; throwing listeners are ignored,
so the only observable effect is that a notification fired. -/
def emitEvent {T : Type} (s : QState T) : QState T :=
  { s with events := s.events + 1 }

/-- The `while (length > max) shift()` loop of `trimCompletedHistory`. -/
def trimHistoryList {T : Type} (maxH : Nat) : List (QTask T) → List (QTask T)
  | [] => []
  | t :: rest =>
    if rest.length + 1 > maxH then trimHistoryList maxH rest else t :: rest

/-- `trimCompletedHistory()`. -/
def trimCompletedHistory {T : Type} (s : QState T) : QState T :=
  { s with completedTasks := trimHistoryList s.maxCompletedHistory s.completedTasks }

/-- `findIndex` + `splice(index, 1)`: remove the first task with the given
id, returning it and the remaining list. -/
def removeFirstById {T : Type} (taskId : Nat) : List (QTask T) → Option (QTask T × List (QTask T))
  | [] => none
  | t :: rest =>
    if t.id = taskId then some (t, rest)
    else
      match removeFirstById taskId rest with
      | some (u, rest2) => some (u, t :: rest2)
      | none => none

/-- The `tryRunNext` while loop, with fuel (each iteration pops the queue, so
the queue length is enough fuel).  With a worker registered, the popped task
runs: status `running`, start time, running-map insert, notification.  With
no worker, `runTask` rejects the promise with `"Worker not set"` and returns
— no state change, no notification — and the loop continues. -/
def tryRunNextGo {T : Type} (now : Nat) : Nat → QState T → QState T
  | 0, s => s
  | fuel + 1, s =>
    if s.runningTasks.length < s.concurrency then
      match s.queue with
      | [] => s
      | t :: rest =>
        if s.workerSet then
          tryRunNextGo now fuel
            (emitEvent
              { s with
                queue := rest,
                runningTasks := s.runningTasks ++
                  [{ t with status := TaskStatus.running, startTime := some now }] })
        else
          tryRunNextGo now fuel
            { s with queue := rest, settled := s.settled ++ [(t, some "Worker not set")] }
    else s

/-- `tryRunNext()`. -/
def tryRunNext {T : Type} (now : Nat) (s : QState T) : QState T :=
  tryRunNextGo now s.queue.length s

/-- `submit(data)`: allocate the next id, append a pending task, notify,
try to admit. -/
def submit {T : Type} (now : Nat) (d : T) (s : QState T) : QState T :=
  let t : QTask T :=
    ⟨s.taskIdCounter + 1, d, TaskStatus.pending, none, none, none, "", ""⟩
  tryRunNext now
    (emitEvent { s with taskIdCounter := s.taskIdCounter + 1, queue := s.queue ++ [t] })

/-- `submitBatch(items)`: `items.map(submit)`. -/
def submitBatch {T : Type} (now : Nat) (ds : List T) (s : QState T) : QState T :=
  ds.foldl (fun s2 d => submit now d s2) s

/-- `setConcurrency(n)`: clamp to at least 1, then try to admit. -/
def setConcurrency {T : Type} (now : Nat) (n : Nat) (s : QState T) : QState T :=
  tryRunNext now { s with concurrency := max 1 n }

/-- `setWorker(fn)`. -/
def setWorker {T : Type} (s : QState T) : QState T :=
  { s with workerSet := true }

/-- `cancelTask(taskId)`: remove from the pending list if present, mark
cancelled with an end time, move to history (trimmed), reject the promise
with `"Task cancelled"`, notify, return `true`; otherwise return `false`
and change nothing. -/
def cancelTask {T : Type} (now : Nat) (taskId : Nat) (s : QState T) : Bool × QState T :=
  match removeFirstById taskId s.queue with
  | none => (false, s)
  | some (t, rest) =>
    let t2 := { t with status := TaskStatus.cancelled, endTime := some now }
    let s1 := trimCompletedHistory
      { s with queue := rest, completedTasks := s.completedTasks ++ [t2] }
    (true, emitEvent { s1 with settled := s1.settled ++ [(t2, some "Task cancelled")] })

/-- The continuation of `runTask` after `await worker(...)` settles: status
`completed`/`failed`, resolve or reject, end time, remove from the running
map, push to (trimmed) history, notify, re-run admission.  A `finishTask`
for an id that is not running has no continuation and is a no-op. -/
def finishTask {T : Type} (now : Nat) (taskId : Nat) (ok : Bool) (msg : String)
    (s : QState T) : QState T :=
  match removeFirstById taskId s.runningTasks with
  | none => s
  | some (t, rest) =>
    let t2 := if ok then { t with status := TaskStatus.completed }
              else { t with status := TaskStatus.failed, error := some msg }
    let t3 := { t2 with endTime := some now }
    let s1 := trimCompletedHistory
      { s with runningTasks := rest, completedTasks := s.completedTasks ++ [t3] }
    tryRunNext now
      (emitEvent { s1 with settled := s1.settled ++ [(t2, if ok then none else some msg)] })

/-- `clear()`: cancel every pending task (end time, history, rejection with
`"Queue cleared"`), empty the pending list, trim, notify. -/
def clearQueue {T : Type} (now : Nat) (s : QState T) : QState T :=
  let cancelled := s.queue.map
    (fun t => { t with status := TaskStatus.cancelled, endTime := some now })
  emitEvent (trimCompletedHistory
    { s with queue := [],
             completedTasks := s.completedTasks ++ cancelled,
             settled := s.settled ++ cancelled.map (fun t => (t, some "Queue cleared")) })

/-- `clearHistory()`. -/
def clearHistory {T : Type} (s : QState T) : QState T :=
  emitEvent { s with completedTasks := [] }

/-- `appendOutput(taskId, chunk, isThought)`: only running tasks are looked
up; append to the matching buffer and notify, else no-op. -/
def appendOutput {T : Type} (taskId : Nat) (chunk : String) (isThought : Bool)
    (s : QState T) : QState T :=
  if s.runningTasks.any (fun t => t.id == taskId) then
    emitEvent
      { s with runningTasks := s.runningTasks.map (fun t =>
          if t.id = taskId then
            if isThought then { t with thoughtOutput := t.thoughtOutput ++ chunk }
            else { t with output := t.output ++ chunk }
          else t) }
  else s

/-- The counts returned by `getStatus()`. -/
structure QStatus where
  queued : Nat
  running : Nat
  concurrency : Nat
  completed : Nat
  failed : Nat
deriving DecidableEq, Repr

/-- `getStatus()`: `failed` counts both `failed` and `cancelled` history
entries. -/
def getStatus {T : Type} (s : QState T) : QStatus :=
  ⟨s.queue.length, s.runningTasks.length, s.concurrency,
   (s.completedTasks.filter (fun t => t.status == TaskStatus.completed)).length,
   (s.completedTasks.filter
      (fun t => t.status == TaskStatus.failed || t.status == TaskStatus.cancelled)).length⟩

/-- The public projection returned by `getAllTasks()`. -/
structure TaskInfo where
  id : Nat
  status : TaskStatus
  error : Option String
  startTime : Option Nat
  endTime : Option Nat
  output : String
  thoughtOutput : String
deriving DecidableEq, Repr

/-- `getAllTasks()`: running first, then pending in submission order, then
history most-recently-terminated first, with the field subsets the source
copies for each group. -/
def getAllTasks {T : Type} (s : QState T) : List TaskInfo :=
  s.runningTasks.map (fun t => ⟨t.id, t.status, none, t.startTime, none, t.output, t.thoughtOutput⟩)
    ++ s.queue.map (fun t => ⟨t.id, t.status, none, none, none, t.output, t.thoughtOutput⟩)
    ++ s.completedTasks.reverse.map
        (fun t => ⟨t.id, t.status, t.error, t.startTime, t.endTime, t.output, t.thoughtOutput⟩)

/-- The operations a caller (or a settling worker) can perform, each tagged
with the clock value `Date.now()` would return where the source reads it. -/
inductive QOp (T : Type) where
  | submit (d : T) (now : Nat)
  | submitBatch (ds : List T) (now : Nat)
  | setConcurrency (n : Nat) (now : Nat)
  | finishTask (taskId : Nat) (ok : Bool) (msg : String) (now : Nat)
  | cancelTask (taskId : Nat) (now : Nat)
  | clearQueue (now : Nat)
  | clearHistory
  | setWorker
  | appendOutput (taskId : Nat) (chunk : String) (isThought : Bool)

/-- Apply one operation. -/
def stepOp {T : Type} (s : QState T) : QOp T → QState T
  | QOp.submit d now => submit now d s
  | QOp.submitBatch ds now => submitBatch now ds s
  | QOp.setConcurrency n now => setConcurrency now n s
  | QOp.finishTask taskId ok msg now => finishTask now taskId ok msg s
  | QOp.cancelTask taskId now => (cancelTask now taskId s).2
  | QOp.clearQueue now => clearQueue now s
  | QOp.clearHistory => clearHistory s
  | QOp.setWorker => setWorker s
  | QOp.appendOutput taskId chunk isThought => appendOutput taskId chunk isThought s

/-- Run a whole operation sequence from the initial state. -/
def runOps {T : Type} (ops : List (QOp T)) : QState T :=
  ops.foldl stepOp (initialQState T)

/-- How the historical-maximum concurrency ghost evolves at one operation:
it absorbs every clamped `setConcurrency` argument. -/
def concSeenStep {T : Type} (m : Nat) (op : QOp T) : Nat :=
  match op with
  | QOp.setConcurrency n _ => max m (max 1 n)
  | _ => m

/-- The largest concurrency limit that has been in effect during a sequence
(the initial 1, and every clamped `setConcurrency` argument). -/
def concSeen {T : Type} (ops : List (QOp T)) : Nat :=
  ops.foldl concSeenStep 1

/-! ### C1: the concurrency bound -/

/-- Admission never raises the running count above the current limit, and
never changes the limit: after `tryRunNext`, the running count is at most
`max concurrency (previous running count)`. -/
theorem tryRunNextGo_bound {T : Type} (now : Nat) (fuel : Nat) :
    ∀ s : QState T,
      (tryRunNextGo now fuel s).runningTasks.length
          ≤ max s.concurrency s.runningTasks.length
      ∧ (tryRunNextGo now fuel s).concurrency = s.concurrency := by
  induction fuel with
  | zero =>
    intro s
    exact ⟨Nat.le_max_right _ _, rfl⟩
  | succ fuel ih =>
    intro s
    unfold tryRunNextGo
    split
    · split
      · exact ⟨Nat.le_max_right _ _, rfl⟩
      · split
        · next h _ _ _ _ =>
          refine ⟨le_trans (ih _).1 ?_, (ih _).2⟩
          simp only [emitEvent, List.length_append, List.length_cons, List.length_nil]
          omega
        · exact ⟨(ih _).1, (ih _).2⟩
    · exact ⟨Nat.le_max_right _ _, rfl⟩

/-- `tryRunNext` keeps `running ≤ m` whenever both the running count and the
limit are at most `m`, and does not change the limit. -/
theorem tryRunNext_bound {T : Type} (now : Nat) (s : QState T) (m : Nat)
    (hr : s.runningTasks.length ≤ m) (hcon : s.concurrency ≤ m) :
    (tryRunNext now s).runningTasks.length ≤ m
    ∧ (tryRunNext now s).concurrency ≤ m := by
  obtain ⟨h1, h2⟩ := tryRunNextGo_bound now s.queue.length s
  refine ⟨le_trans h1 ?_, by rw [tryRunNext, h2]; exact hcon⟩
  exact max_le hcon hr

/-- Removing a task shortens the list by exactly one. -/
theorem removeFirstById_length {T : Type} (taskId : Nat) (l : List (QTask T)) :
    ∀ t rest, removeFirstById taskId l = some (t, rest) → rest.length + 1 = l.length := by
  induction l with
  | nil => intro t rest h; simp [removeFirstById] at h
  | cons u us ih =>
    intro t rest h
    unfold removeFirstById at h
    by_cases hu : u.id = taskId
    · rw [if_pos hu] at h
      simp only [Option.some.injEq, Prod.mk.injEq] at h
      obtain ⟨-, h3⟩ := h
      simp [← h3]
    · rw [if_neg hu] at h
      cases hrec : removeFirstById taskId us with
      | none => rw [hrec] at h; exact absurd h (by simp)
      | some p =>
        obtain ⟨p1, p2⟩ := p
        rw [hrec] at h
        simp only [Option.some.injEq, Prod.mk.injEq] at h
        obtain ⟨-, h3⟩ := h
        have h4 := ih p1 p2 hrec
        rw [← h3]
        simp [← h4]

/-- `submit` preserves the bound. -/
theorem submit_bound {T : Type} (now : Nat) (d : T) (s : QState T) (m : Nat)
    (hr : s.runningTasks.length ≤ m) (hcon : s.concurrency ≤ m) :
    (submit now d s).runningTasks.length ≤ m ∧ (submit now d s).concurrency ≤ m := by
  unfold submit
  exact tryRunNext_bound now _ m (by simpa [emitEvent] using hr)
    (by simpa [emitEvent] using hcon)

/-- `submitBatch` preserves the bound. -/
theorem submitBatch_bound {T : Type} (now : Nat) (ds : List T) :
    ∀ (s : QState T) (m : Nat), s.runningTasks.length ≤ m → s.concurrency ≤ m →
      (submitBatch now ds s).runningTasks.length ≤ m
      ∧ (submitBatch now ds s).concurrency ≤ m := by
  induction ds with
  | nil => intro s m hr hcon; exact ⟨hr, hcon⟩
  | cons d ds ih =>
    intro s m hr hcon
    obtain ⟨h1, h2⟩ := submit_bound now d s m hr hcon
    simpa [submitBatch, List.foldl_cons] using ih (submit now d s) m h1 h2

/-- One step preserves `running ≤ m ∧ concurrency ≤ m`, with `m` growing
only at `setConcurrency`. -/
theorem stepOp_bound {T : Type} (s : QState T) (op : QOp T) (m : Nat)
    (hr : s.runningTasks.length ≤ m) (hcon : s.concurrency ≤ m) :
    (stepOp s op).runningTasks.length ≤ concSeenStep m op
    ∧ (stepOp s op).concurrency ≤ concSeenStep m op := by
  cases op with
  | submit d now => exact submit_bound now d s m hr hcon
  | submitBatch ds now => exact submitBatch_bound now ds s m hr hcon
  | setConcurrency n now =>
    simp only [stepOp, setConcurrency, concSeenStep]
    refine tryRunNext_bound now _ _ ?_ ?_
    · exact le_trans hr (Nat.le_max_left m (max 1 n))
    · simp
  | finishTask taskId ok msg now =>
    simp only [stepOp, finishTask, concSeenStep]
    cases hrem : removeFirstById taskId s.runningTasks with
    | none => exact ⟨hr, hcon⟩
    | some p =>
      obtain ⟨t, rest⟩ := p
      have hlen := removeFirstById_length taskId s.runningTasks t rest hrem
      refine tryRunNext_bound now _ m ?_ ?_
      · simp only [emitEvent, trimCompletedHistory]
        omega
      · simpa [emitEvent, trimCompletedHistory] using hcon
  | cancelTask taskId now =>
    simp only [stepOp, cancelTask, concSeenStep]
    cases hrem : removeFirstById taskId s.queue with
    | none => exact ⟨hr, hcon⟩
    | some p =>
      obtain ⟨t, rest⟩ := p
      exact ⟨by simpa [emitEvent, trimCompletedHistory] using hr,
             by simpa [emitEvent, trimCompletedHistory] using hcon⟩
  | clearQueue now =>
    exact ⟨by simpa [stepOp, clearQueue, emitEvent, trimCompletedHistory, concSeenStep] using hr,
           by simpa [stepOp, clearQueue, emitEvent, trimCompletedHistory, concSeenStep] using hcon⟩
  | clearHistory =>
    exact ⟨by simpa [stepOp, clearHistory, emitEvent, concSeenStep] using hr,
           by simpa [stepOp, clearHistory, emitEvent, concSeenStep] using hcon⟩
  | setWorker =>
    exact ⟨by simpa [stepOp, setWorker, concSeenStep] using hr,
           by simpa [stepOp, setWorker, concSeenStep] using hcon⟩
  | appendOutput taskId chunk isThought =>
    simp only [stepOp, appendOutput, concSeenStep]
    by_cases h : s.runningTasks.any (fun t => t.id == taskId)
    · simp only [h, if_true]
      exact ⟨by simpa [emitEvent] using hr, by simpa [emitEvent] using hcon⟩
    · simp only [h]
      exact ⟨by simpa using hr, by simpa using hcon⟩

/-- `submitBatch` never changes the concurrency limit. -/
theorem submitBatch_conc {T : Type} (now : Nat) (ds : List T) :
    ∀ s : QState T, (submitBatch now ds s).concurrency = s.concurrency := by
  induction ds with
  | nil => intro s; rfl
  | cons d ds ih =>
    intro s
    have h1 : (submit now d s).concurrency = s.concurrency :=
      (tryRunNextGo_bound (T := T) now _ _).2
    have h2 := ih (submit now d s)
    simpa [submitBatch, List.foldl_cons, h1] using h2

/-- No operation other than `setConcurrency` changes the concurrency limit. -/
theorem stepOp_conc_eq {T : Type} (s : QState T) (op : QOp T)
    (h : ∀ n now, op ≠ QOp.setConcurrency n now) :
    (stepOp s op).concurrency = s.concurrency := by
  cases op with
  | submit d now => exact (tryRunNextGo_bound now _ _).2
  | submitBatch ds now => exact submitBatch_conc now ds s
  | setConcurrency n now => exact absurd rfl (h n now)
  | finishTask taskId ok msg now =>
    simp only [stepOp, finishTask]
    cases hrem : removeFirstById taskId s.runningTasks with
    | none => rfl
    | some p =>
      obtain ⟨t, rest⟩ := p
      exact (tryRunNextGo_bound now _ _).2
  | cancelTask taskId now =>
    simp only [stepOp, cancelTask]
    cases hrem : removeFirstById taskId s.queue with
    | none => rfl
    | some p =>
      obtain ⟨t, rest⟩ := p
      rfl
  | clearQueue now => rfl
  | clearHistory => rfl
  | setWorker => rfl
  | appendOutput taskId chunk isThought =>
    simp only [stepOp, appendOutput]
    by_cases h2 : s.runningTasks.any (fun t => t.id == taskId) <;> simp [h2, emitEvent]

/-- Fold form of the bound over a whole operation sequence. -/
theorem foldl_stepOp_bound {T : Type} (ops : List (QOp T)) :
    ∀ (s : QState T) (m : Nat),
      s.runningTasks.length ≤ m → s.concurrency ≤ m →
      (ops.foldl stepOp s).runningTasks.length ≤ ops.foldl concSeenStep m
      ∧ (ops.foldl stepOp s).concurrency ≤ ops.foldl concSeenStep m := by
  induction ops with
  | nil => intro s m hr hcon; exact ⟨hr, hcon⟩
  | cons op ops ih =>
    intro s m hr hcon
    obtain ⟨h1, h2⟩ := stepOp_bound s op m hr hcon
    simpa [List.foldl_cons] using ih (stepOp s op) (concSeenStep m op) h1 h2

/-- C1 (amended): for every operation sequence, the running count never
exceeds the largest concurrency limit that has been in effect (initially 1);
moreover every operation other than `setConcurrency` preserves
`running ≤ concurrency` and leaves the limit unchanged — so the current
limit can only be exceeded transiently after a `setConcurrency` decrease,
never through admission. -/
theorem c1_running_bounded_by_seen_concurrency :
    (∀ ops : List (QOp Nat), (runOps ops).runningTasks.length ≤ concSeen ops)
    ∧ (∀ (s : QState Nat) (op : QOp Nat),
        s.runningTasks.length ≤ s.concurrency →
        (∀ n now, op ≠ QOp.setConcurrency n now) →
        (stepOp s op).runningTasks.length ≤ (stepOp s op).concurrency
        ∧ (stepOp s op).concurrency = s.concurrency) := by
  constructor
  · intro ops
    exact (foldl_stepOp_bound ops (initialQState Nat) 1 (by simp [initialQState])
      (by simp [initialQState])).1
  · intro s op hr hop
    have hconc := stepOp_conc_eq s op hop
    have hb := stepOp_bound s op s.concurrency hr le_rfl
    have hcs : concSeenStep s.concurrency op = s.concurrency := by
      cases op with
      | setConcurrency n now => exact absurd rfl (hop n now)
      | submit d now => rfl
      | submitBatch ds now => rfl
      | finishTask a b c d => rfl
      | cancelTask a b => rfl
      | clearQueue a => rfl
      | clearHistory => rfl
      | setWorker => rfl
      | appendOutput a b c => rfl
    rw [hcs] at hb
    exact ⟨by rw [hconc]; exact hb.1, hconc⟩

/-- An operation sequence on which the claim as stated fails: two tasks are
admitted at limit 2, then the limit is lowered to 1 while both still run. -/
def c1CounterOps : List (QOp Nat) :=
  [QOp.setWorker, QOp.setConcurrency 2 0, QOp.submit 10 1, QOp.submit 11 2,
   QOp.setConcurrency 1 3]

/-- C1, counterexample to the claim as stated: after `setConcurrency(1)`
with two tasks still running, `running.size = 2 > 1 = concurrencyLimit` —
a decrease takes effect only as running tasks finish. -/
theorem c1_running_le_current_limit_refuted :
    (runOps c1CounterOps).runningTasks.length = 2
    ∧ (runOps c1CounterOps).concurrency = 1
    ∧ ¬ ((runOps c1CounterOps).runningTasks.length
          ≤ (runOps c1CounterOps).concurrency) := by
  refine ⟨by decide, by decide, by decide⟩

/-- C1, witness: the bound holds on the counterexample trace (2 ≤ 2), and a
`submit` from a state satisfying the invariant preserves it. -/
theorem c1_running_bounded_witness :
    (runOps c1CounterOps).runningTasks.length ≤ concSeen c1CounterOps
    ∧ ((stepOp (initialQState Nat) (QOp.submit 7 4)).runningTasks.length
          ≤ (stepOp (initialQState Nat) (QOp.submit 7 4)).concurrency
        ∧ (stepOp (initialQState Nat) (QOp.submit 7 4)).concurrency
            = (initialQState Nat).concurrency) :=
  ⟨c1_running_bounded_by_seen_concurrency.1 c1CounterOps,
   c1_running_bounded_by_seen_concurrency.2 (initialQState Nat) (QOp.submit 7 4)
     (by decide) (fun n now h => QOp.noConfusion h)⟩

/-! ### C5: cancelTask semantics -/

/-- No matching id means nothing is removed. -/
theorem removeFirstById_none {T : Type} (taskId : Nat) (l : List (QTask T))
    (h : ∀ t ∈ l, t.id ≠ taskId) : removeFirstById taskId l = none := by
  induction l with
  | nil => rfl
  | cons u us ih =>
    unfold removeFirstById
    rw [if_neg (h u (List.mem_cons_self u us))]
    rw [ih (fun t ht => h t (List.mem_cons_of_mem u ht))]

/-- Removing the first match from a decomposed list. -/
theorem removeFirstById_split {T : Type} (taskId : Nat) (fr : List (QTask T))
    (t : QTask T) (post : List (QTask T)) (ht : t.id = taskId)
    (hfr : ∀ u ∈ fr, u.id ≠ taskId) :
    removeFirstById taskId (fr ++ t :: post) = some (t, fr ++ post) := by
  induction fr with
  | nil =>
    simp only [List.nil_append]
    unfold removeFirstById
    rw [if_pos ht]
  | cons u us ih =>
    simp only [List.cons_append]
    unfold removeFirstById
    rw [if_neg (hfr u (List.mem_cons_self u us))]
    rw [ih (fun v hv => hfr v (List.mem_cons_of_mem u hv))]

/-- A list within the cap is not trimmed. -/
theorem trimHistoryList_eq_self {T : Type} (maxH : Nat) (l : List (QTask T))
    (h : l.length ≤ maxH) : trimHistoryList maxH l = l := by
  cases l with
  | nil => rfl
  | cons t rest =>
    unfold trimHistoryList
    rw [if_neg]
    simp only [List.length_cons] at h
    omega

/-- C5: `cancelTask(id)` removes a pending task with that id, marks it
cancelled with an end time, appends it to history, rejects its promise with
`"Task cancelled"`, notifies, and returns `true`; for an id not in the
pending list (running, terminal or unknown) it returns `false` and leaves
the whole state — including any running task — unchanged. -/
theorem c5_cancelTask_spec (s : QState Nat) (taskId now : Nat) :
    ((∀ t ∈ s.queue, t.id ≠ taskId) → cancelTask now taskId s = (false, s))
    ∧ (∀ (fr : List (QTask Nat)) (t : QTask Nat) (post : List (QTask Nat)),
        s.queue = fr ++ t :: post → t.id = taskId →
        (∀ u ∈ fr, u.id ≠ taskId) →
        s.completedTasks.length < s.maxCompletedHistory →
        cancelTask now taskId s
          = (true,
             { s with
                queue := fr ++ post,
                completedTasks := s.completedTasks
                  ++ [{ t with status := TaskStatus.cancelled, endTime := some now }],
                events := s.events + 1,
                settled := s.settled
                  ++ [({ t with status := TaskStatus.cancelled, endTime := some now },
                       some "Task cancelled")] })) := by
  constructor
  · intro h
    unfold cancelTask
    rw [removeFirstById_none taskId s.queue h]
  · intro fr t post hq ht hfr hlen
    unfold cancelTask
    rw [hq, removeFirstById_split taskId fr t post ht hfr]
    have htrim : trimHistoryList s.maxCompletedHistory
        (s.completedTasks
          ++ [{ t with status := TaskStatus.cancelled, endTime := some now }])
        = s.completedTasks
            ++ [{ t with status := TaskStatus.cancelled, endTime := some now }] := by
      apply trimHistoryList_eq_self
      simp only [List.length_append, List.length_cons, List.length_nil]
      omega
    simp [trimCompletedHistory, emitEvent, htrim]

/-- A pending task with id 5 plus a running task with id 9. -/
def c5State : QState Nat :=
  { queue := [⟨5, 50, TaskStatus.pending, none, none, none, "", ""⟩],
    runningTasks := [⟨9, 90, TaskStatus.running, none, some 1, none, "", ""⟩],
    completedTasks := [],
    taskIdCounter := 9,
    concurrency := 2,
    workerSet := true,
    maxCompletedHistory := 1000,
    events := 0,
    settled := [] }

/-- C5, witness: cancelling the running id 9 returns `false` and changes
nothing; cancelling the pending id 5 returns `true`. -/
theorem c5_cancelTask_spec_witness :
    cancelTask 3 9 c5State = (false, c5State) ∧ (cancelTask 3 5 c5State).1 = true :=
  ⟨(c5_cancelTask_spec c5State 9 3).1 (by decide),
   by rw [(c5_cancelTask_spec c5State 5 3).2 []
       ⟨5, 50, TaskStatus.pending, none, none, none, "", ""⟩ []
       rfl rfl (by simp) (by decide)]⟩

/-! ### C9: admission with no registered worker -/

/-- C9: admitting a submission while no worker is registered rejects its
promise with `"Worker not set"` while its status is still `pending`, leaves
every collection as it was (the task is in none of the three), fires only
the submission notification (none for the rejection), and `getAllTasks` does
not report the task. -/
theorem c9_no_worker_rejection (s : QState Nat) (d now : Nat)
    (hw : s.workerSet = false) (hq : s.queue = [])
    (hcap : s.runningTasks.length < s.concurrency) :
    submit now d s
      = { s with
            taskIdCounter := s.taskIdCounter + 1,
            events := s.events + 1,
            settled := s.settled
              ++ [(⟨s.taskIdCounter + 1, d, TaskStatus.pending, none, none, none, "", ""⟩,
                   some "Worker not set")] }
    ∧ (⟨s.taskIdCounter + 1, d, TaskStatus.pending, none, none, none, "", ""⟩ : QTask Nat).status
        = TaskStatus.pending
    ∧ getAllTasks (submit now d s) = getAllTasks s := by
  have h1 : submit now d s
      = { s with
            taskIdCounter := s.taskIdCounter + 1,
            events := s.events + 1,
            settled := s.settled
              ++ [(⟨s.taskIdCounter + 1, d, TaskStatus.pending, none, none, none, "", ""⟩,
                   some "Worker not set")] } := by
    unfold submit tryRunNext
    rw [hq]
    simp only [emitEvent, List.nil_append, List.length_cons, List.length_nil]
    unfold tryRunNextGo
    rw [if_pos (by simpa using hcap)]
    simp only [hw]
    unfold tryRunNextGo
    rfl
  refine ⟨h1, rfl, ?_⟩
  rw [h1]
  unfold getAllTasks
  rfl

/-- C9, witness: a fresh queue (no worker, capacity available) rejects the
first submission and reports no task afterwards. -/
theorem c9_no_worker_rejection_witness :
    submit 4 7 (initialQState Nat)
      = { initialQState Nat with
            taskIdCounter := 1,
            events := 1,
            settled := [(⟨1, 7, TaskStatus.pending, none, none, none, "", ""⟩,
                         some "Worker not set")] }
    ∧ getAllTasks (submit 4 7 (initialQState Nat)) = getAllTasks (initialQState Nat) :=
  ⟨(c9_no_worker_rejection (initialQState Nat) 7 4 rfl rfl (by decide)).1,
   (c9_no_worker_rejection (initialQState Nat) 7 4 rfl rfl (by decide)).2.2⟩

/-! ### C10: status counts come from the retained history -/

/-- C10: `getStatus`'s `completed` and `failed` counts are computed from the
currently retained history list (with `failed` counting both `failed` and
`cancelled`); `clearHistory()` resets both counts to zero while leaving
`queued`, `running` and `concurrency` unchanged; and trimming at the cap
drops the oldest entry, decreasing the corresponding count. -/
theorem c10_status_counts_from_history (s : QState Nat) :
    (getStatus s).completed
        = (s.completedTasks.filter (fun t => t.status == TaskStatus.completed)).length
    ∧ (getStatus s).failed
        = (s.completedTasks.filter
            (fun t => t.status == TaskStatus.failed || t.status == TaskStatus.cancelled)).length
    ∧ getStatus (clearHistory s)
        = ⟨s.queue.length, s.runningTasks.length, s.concurrency, 0, 0⟩
    ∧ (∀ (t : QTask Nat) (rest : List (QTask Nat)),
        s.completedTasks = t :: rest → rest.length = s.maxCompletedHistory →
          (getStatus (trimCompletedHistory s)).completed
              + (if t.status = TaskStatus.completed then 1 else 0)
            = (getStatus s).completed
          ∧ (getStatus (trimCompletedHistory s)).failed
              + (if t.status = TaskStatus.failed ∨ t.status = TaskStatus.cancelled
                 then 1 else 0)
            = (getStatus s).failed) := by
  refine ⟨rfl, rfl, rfl, ?_⟩
  intro t rest hcomp hlen
  have htrim : trimHistoryList s.maxCompletedHistory s.completedTasks = rest := by
    rw [hcomp]
    unfold trimHistoryList
    rw [if_pos (by omega)]
    exact trimHistoryList_eq_self s.maxCompletedHistory rest (by omega)
  unfold getStatus trimCompletedHistory
  rw [htrim, hcomp]
  rcases t with ⟨i, dd, st, er, a, b, o, th⟩
  cases st <;> exact ⟨rfl, rfl⟩

/-- History cap 1 with one completed and one failed entry retained. -/
def c10State : QState Nat :=
  { queue := [],
    runningTasks := [],
    completedTasks :=
      [⟨1, 10, TaskStatus.completed, none, some 1, some 2, "", ""⟩,
       ⟨2, 20, TaskStatus.failed, some "boom", some 1, some 3, "", ""⟩],
    taskIdCounter := 2,
    concurrency := 1,
    workerSet := true,
    maxCompletedHistory := 1,
    events := 0,
    settled := [] }

/-- C10, witness: at the cap, trimming drops the oldest (completed) entry
and the completed count decreases by one while the failed count stays. -/
theorem c10_status_counts_witness :
    (getStatus (trimCompletedHistory c10State)).completed
        + (if (⟨1, 10, TaskStatus.completed, none, some 1, some 2, "", ""⟩ : QTask Nat).status
              = TaskStatus.completed then 1 else 0)
      = (getStatus c10State).completed
    ∧ (getStatus (trimCompletedHistory c10State)).failed
        + (if (⟨1, 10, TaskStatus.completed, none, some 1, some 2, "", ""⟩ : QTask Nat).status
              = TaskStatus.failed
            ∨ (⟨1, 10, TaskStatus.completed, none, some 1, some 2, "", ""⟩ : QTask Nat).status
              = TaskStatus.cancelled then 1 else 0)
      = (getStatus c10State).failed :=
  (c10_status_counts_from_history c10State).2.2.2
    ⟨1, 10, TaskStatus.completed, none, some 1, some 2, "", ""⟩
    [⟨2, 20, TaskStatus.failed, some "boom", some 1, some 3, "", ""⟩] rfl rfl

/-! ### C3: the 524/transient retry controller
(`summarizeWithRemotePdfWithRetry` in `aiSummary.ts`)

The wrapped attempt is modelled as a function from the attempt number to its
outcome; `await` delays are recorded in a trace rather than performed. -/

/-- `haystack.includes(needle)`. -/
def containsSub (hay needle : List Char) : Bool :=
  match hay with
  | [] => needle.isEmpty
  | _ :: rest => needle.isPrefixOf hay || containsSub rest needle

/-- `String.prototype.includes`. -/
def strContains (hay needle : String) : Bool :=
  containsSub hay.toList needle.toList

/-- `toLowerCase()` (ASCII range; the classified markers are ASCII). -/
def lowerStr (s : String) : String :=
  String.mk (s.toList.map Char.toLower)

/-- `isTransientStreamError` from the source. -/
def isTransientStreamError (msg : String) : Bool :=
  strContains (lowerStr msg) "error in input stream"
    || strContains (lowerStr msg) "network error"
    || strContains (lowerStr msg) "econnreset"

/-- `shouldRetry`: a 524 marker anywhere in the message, or a transient
stream error. -/
def shouldRetryMsg (msg : String) : Bool :=
  strContains msg "524" || isTransientStreamError msg

/-- Observable trace of one call into the retry controller: the final
outcome, how many attempts ran, the backoff delay awaited before each retry,
and the informational fragments emitted through `onStreamChunk`. -/
structure RetryTrace (R : Type) where
  result : Except String R
  attempts : Nat
  delays : List Nat
  emits : List (String × Bool)
deriving Repr

/-- The informational notice emitted before retry `attempt + 1`
(`Math.round(delayMs / 1000)` is exact division here since every delay is a
multiple of 1000). -/
def retryNotice (errorMsg : String) (attempt maxRetries : Nat) : String :=
  let delayMs := min 10000 (2000 * 2 ^ attempt)
  let reasonText :=
    if strContains errorMsg "524" then "524 超时错误"
    else "流式连接中断 (input stream/network)"
  "\n[" ++ reasonText ++ "，正在进行第 " ++ toString (attempt + 1) ++ "/"
    ++ toString maxRetries ++ " 次重试，等待 " ++ toString (delayMs / 1000) ++ "s...]\n"

/-- The `for (attempt = 0; attempt <= maxRetries; attempt++)` loop from
attempt number `attempt` with `retriesLeft = maxRetries - attempt`: a
success returns; a retryable error with budget left emits the notice, waits
`min(10000, 2000 * 2^attempt)` and retries; anything else re-throws the
error unchanged. -/
def retryFromAttempt {R : Type} (f : Nat → Except String R) (maxRetries : Nat) :
    Nat → Nat → RetryTrace R
  | attempt, 0 =>
    match f attempt with
    | Except.ok r => ⟨Except.ok r, 1, [], []⟩
    | Except.error e => ⟨Except.error e, 1, [], []⟩
  | attempt, retriesLeft + 1 =>
    match f attempt with
    | Except.ok r => ⟨Except.ok r, 1, [], []⟩
    | Except.error e =>
      if shouldRetryMsg e then
        ⟨(retryFromAttempt f maxRetries (attempt + 1) retriesLeft).result,
         (retryFromAttempt f maxRetries (attempt + 1) retriesLeft).attempts + 1,
         min 10000 (2000 * 2 ^ attempt)
           :: (retryFromAttempt f maxRetries (attempt + 1) retriesLeft).delays,
         (retryNotice e attempt maxRetries, false)
           :: (retryFromAttempt f maxRetries (attempt + 1) retriesLeft).emits⟩
      else ⟨Except.error e, 1, [], []⟩

/-- `summarizeWithRemotePdfWithRetry` with `maxRetries = prefs.retryOn524`. -/
def summarizeWithRemotePdfWithRetry {R : Type} (f : Nat → Except String R)
    (maxRetries : Nat) : RetryTrace R :=
  retryFromAttempt f maxRetries 0 maxRetries

/-- Closed form of the loop when every attempt in range throws a retryable
error. -/
theorem retryFromAttempt_all_transient {R : Type} (f : Nat → Except String R)
    (es : Nat → String) (maxRetries : Nat) :
    ∀ n a : Nat,
      (∀ i, a ≤ i → i ≤ a + n → f i = Except.error (es i) ∧ shouldRetryMsg (es i) = true) →
      retryFromAttempt f maxRetries a n
        = ⟨Except.error (es (a + n)), n + 1,
           (List.range' a n).map (fun i => min 10000 (2000 * 2 ^ i)),
           (List.range' a n).map (fun i => (retryNotice (es i) i maxRetries, false))⟩ := by
  intro n
  induction n with
  | zero =>
    intro a h
    obtain ⟨hf, -⟩ := h a le_rfl (by omega)
    unfold retryFromAttempt
    rw [hf]
    simp
  | succ n ih =>
    intro a h
    obtain ⟨hf, hs⟩ := h a le_rfl (by omega)
    unfold retryFromAttempt
    rw [hf]
    simp only [hs, if_true]
    rw [ih (a + 1) (fun i h1 h2 => h i (by omega) (by omega))]
    have hadd : a + 1 + n = a + (n + 1) := by omega
    simp [List.range'_succ, hadd]

/-- C3: if every attempt throws a transient-class error (524 or dropped
stream / network reset), the controller makes exactly `1 + retryBudget`
attempts, waits `min(10000, 2000 * 2^attemptNumber)` before each retry,
emits one non-thought informational fragment per retry, and finally
re-raises the last attempt's error unchanged. -/
theorem c3_transient_retry_exhaustion {R : Type} (f : Nat → Except String R)
    (es : Nat → String) (maxRetries : Nat)
    (hf : ∀ i, i ≤ maxRetries → f i = Except.error (es i))
    (hs : ∀ i, i ≤ maxRetries → shouldRetryMsg (es i) = true) :
    (summarizeWithRemotePdfWithRetry f maxRetries).attempts = 1 + maxRetries
    ∧ (summarizeWithRemotePdfWithRetry f maxRetries).result = Except.error (es maxRetries)
    ∧ (summarizeWithRemotePdfWithRetry f maxRetries).delays
        = (List.range maxRetries).map (fun a => min 10000 (2000 * 2 ^ a))
    ∧ (summarizeWithRemotePdfWithRetry f maxRetries).emits
        = (List.range maxRetries).map (fun i => (retryNotice (es i) i maxRetries, false))
    ∧ (∀ em ∈ (summarizeWithRemotePdfWithRetry f maxRetries).emits, em.2 = false) := by
  have h := retryFromAttempt_all_transient f es maxRetries maxRetries 0
    (fun i h1 h2 => ⟨hf i (by omega), hs i (by omega)⟩)
  unfold summarizeWithRemotePdfWithRetry
  rw [h]
  refine ⟨by simp [Nat.add_comm], by simp, ?_, ?_, ?_⟩
  · rw [List.range_eq_range']
  · rw [List.range_eq_range']
  · intro em hm
    simp only [List.mem_map] at hm
    obtain ⟨i, -, hi⟩ := hm
    rw [← hi]

/-- A concrete always-524 error message. -/
def c3err : String := "HTTP 524: gateway timeout from Cloudflare"

/-- C3, witness: with retry budget 2 and every attempt failing with a 524
message, there are exactly 3 attempts, delays 2s then 4s, the original error
re-raised, and only non-thought fragments emitted. -/
theorem c3_transient_retry_exhaustion_witness :
    ((summarizeWithRemotePdfWithRetry (fun _ => (Except.error c3err : Except String Unit)) 2).attempts
        = 1 + 2
      ∧ (summarizeWithRemotePdfWithRetry (fun _ => (Except.error c3err : Except String Unit)) 2).result
          = Except.error c3err
      ∧ (summarizeWithRemotePdfWithRetry (fun _ => (Except.error c3err : Except String Unit)) 2).delays
          = (List.range 2).map (fun a => min 10000 (2000 * 2 ^ a))
      ∧ (summarizeWithRemotePdfWithRetry (fun _ => (Except.error c3err : Except String Unit)) 2).emits
          = (List.range 2).map (fun i => (retryNotice c3err i 2, false))
      ∧ (∀ em ∈ (summarizeWithRemotePdfWithRetry
            (fun _ => (Except.error c3err : Except String Unit)) 2).emits, em.2 = false))
    ∧ (List.range 2).map (fun a => min 10000 (2000 * 2 ^ a)) = [2000, 4000] :=
  ⟨c3_transient_retry_exhaustion (fun _ => Except.error c3err) (fun _ => c3err) 2
      (fun i _ => rfl) (fun i _ => (by decide : shouldRetryMsg c3err = true)),
   by decide⟩

/-! ### C4: the 413 remote-to-local fallback (`summarizeSinglePdf`) -/

/-- Result shape of the provider calls on this path. -/
structure ProviderResult where
  markdown : String
  thoughtsMarkdown : Option String
deriving DecidableEq, Repr

/-- The downgrade notice streamed when a 413 is caught. -/
def fallbackNotice : String := "\n[413 错误：PDF 过大，自动切换到本地解析模式...]\n"

/-- Error raised when `attachmentText` itself throws. -/
def noFetchText : String := "413 错误且无法获取本地文本，请手动切换到本地解析模式"

/-- Error raised when no non-empty local text could be obtained. -/
def emptyLocalText : String := "413 错误且本地文本为空，请确保 PDF 已被 Zotero 索引"

/-- The warning banner prefixed to the final markdown after a fallback. -/
def fallbackBanner : String := "> ⚠️ 注意：由于 PDF 文件过大，已自动切换到本地解析模式\n\n"

/-- Observable trace of the remote branch of `summarizeSinglePdf`: outcome
(final markdown or error), streamed informational fragments, and how many
times the local-text `summarize` path ran. -/
structure PdfRunTrace where
  result : Except String String
  emits : List (String × Bool)
  localCalls : Nat
deriving Repr

/-- The local-text resolution inside the 413 handler: prefer
`attachment.text`; otherwise await `attachmentText` (whose failure raises
the descriptive no-fetch error), truncating to `prefs.maxChars`; raise the
descriptive empty-text error if the result is still empty.  (`slice` counts
UTF-16 units in JavaScript; this model counts characters.) -/
def resolveLocalText (attachText : String) (fetch : Except Unit String)
    (maxChars : Nat) : Except String String :=
  let localText : Except String String :=
    if attachText.isEmpty then
      match fetch with
      | Except.error _ => Except.error noFetchText
      | Except.ok txt =>
        Except.ok (if txt.isEmpty then ""
          else if txt.length > maxChars then txt.take maxChars else txt)
    else Except.ok attachText
  match localText with
  | Except.error e => Except.error e
  | Except.ok lt => if lt.isEmpty then Except.error emptyLocalText else Except.ok lt

/-- The remote branch of `summarizeSinglePdf`: run the (retry-wrapped)
remote call; on a message containing `413`, emit the downgrade notice,
resolve local text and call the local `summarize` exactly once, prefixing
the warning banner to a successful result; any other error propagates
unchanged. -/
def summarizeSinglePdfRemote
    (remote : Except String ProviderResult)
    (attachText : String)
    (fetch : Except Unit String)
    (maxChars : Nat)
    (localSummarize : String → Except String ProviderResult) : PdfRunTrace :=
  match remote with
  | Except.ok r => ⟨Except.ok r.markdown, [], 0⟩
  | Except.error e =>
    if strContains e "413" then
      match resolveLocalText attachText fetch maxChars with
      | Except.error d => ⟨Except.error d, [(fallbackNotice, false)], 0⟩
      | Except.ok lt =>
        match localSummarize lt with
        | Except.ok r => ⟨Except.ok (fallbackBanner ++ r.markdown), [(fallbackNotice, false)], 1⟩
        | Except.error e2 => ⟨Except.error e2, [(fallbackNotice, false)], 1⟩
    else ⟨Except.error e, [], 0⟩

/-- C4: on a 413-classified remote failure the controller falls back at most
once (exactly once when local text is obtainable, never a loop), emits the
informational non-thought downgrade fragment, prefixes the warning banner to
a successful fallback result, and raises the descriptive errors (not the
original 413) when no local text can be obtained. -/
theorem c4_413_fallback_once
    (remote : Except String ProviderResult) (attachText : String)
    (fetch : Except Unit String) (maxChars : Nat)
    (localSummarize : String → Except String ProviderResult) (e : String)
    (he : remote = Except.error e) (h413 : strContains e "413" = true) :
    (summarizeSinglePdfRemote remote attachText fetch maxChars localSummarize).localCalls ≤ 1
    ∧ (summarizeSinglePdfRemote remote attachText fetch maxChars localSummarize).emits
        = [(fallbackNotice, false)]
    ∧ (∀ lt r, resolveLocalText attachText fetch maxChars = Except.ok lt →
        localSummarize lt = Except.ok r →
        (summarizeSinglePdfRemote remote attachText fetch maxChars localSummarize).result
            = Except.ok (fallbackBanner ++ r.markdown)
        ∧ (summarizeSinglePdfRemote remote attachText fetch maxChars localSummarize).localCalls
            = 1)
    ∧ (attachText.isEmpty = true → fetch = Except.error () →
        (summarizeSinglePdfRemote remote attachText fetch maxChars localSummarize).result
            = Except.error noFetchText
        ∧ (summarizeSinglePdfRemote remote attachText fetch maxChars localSummarize).localCalls
            = 0)
    ∧ (attachText.isEmpty = true → fetch = Except.ok "" →
        (summarizeSinglePdfRemote remote attachText fetch maxChars localSummarize).result
            = Except.error emptyLocalText
        ∧ (summarizeSinglePdfRemote remote attachText fetch maxChars localSummarize).localCalls
            = 0) := by
  subst he
  refine ⟨?_, ?_, ?_, ?_, ?_⟩
  · unfold summarizeSinglePdfRemote
    simp only [h413, if_true]
    cases h1 : resolveLocalText attachText fetch maxChars with
    | error d => simp [h1]
    | ok lt =>
      cases h2 : localSummarize lt with
      | ok r => simp [h1, h2]
      | error e2 => simp [h1, h2]
  · unfold summarizeSinglePdfRemote
    simp only [h413, if_true]
    cases h1 : resolveLocalText attachText fetch maxChars with
    | error d => simp [h1]
    | ok lt =>
      cases h2 : localSummarize lt with
      | ok r => simp [h1, h2]
      | error e2 => simp [h1, h2]
  · intro lt r h1 h2
    unfold summarizeSinglePdfRemote
    simp only [h413, if_true, h1, h2]
    exact ⟨by trivial, by trivial⟩
  · intro ha hfe
    unfold summarizeSinglePdfRemote
    have hres : resolveLocalText attachText fetch maxChars = Except.error noFetchText := by
      simp [resolveLocalText, ha, hfe]
    simp only [h413, if_true, hres]
    exact ⟨by trivial, by trivial⟩
  · intro ha hfe
    unfold summarizeSinglePdfRemote
    have hres : resolveLocalText attachText fetch maxChars = Except.error emptyLocalText := by
      simp [resolveLocalText, ha, hfe]
      rfl
    simp only [h413, if_true, hres]
    exact ⟨by trivial, by trivial⟩

/-- C4, witness: a 413 failure with fetchable local text falls back exactly
once, emits the downgrade notice, and prefixes the banner. -/
theorem c4_413_fallback_once_witness :
    (summarizeSinglePdfRemote (Except.error "413 payload too large") "" (Except.ok "pdftext")
        1000 (fun _ => Except.ok ⟨"SUMMARY", none⟩)).localCalls ≤ 1
    ∧ (summarizeSinglePdfRemote (Except.error "413 payload too large") "" (Except.ok "pdftext")
        1000 (fun _ => Except.ok ⟨"SUMMARY", none⟩)).emits = [(fallbackNotice, false)]
    ∧ (summarizeSinglePdfRemote (Except.error "413 payload too large") "" (Except.ok "pdftext")
        1000 (fun _ => Except.ok ⟨"SUMMARY", none⟩)).result
        = Except.ok (fallbackBanner ++ "SUMMARY")
    ∧ (summarizeSinglePdfRemote (Except.error "413 payload too large") "" (Except.ok "pdftext")
        1000 (fun _ => Except.ok ⟨"SUMMARY", none⟩)).localCalls = 1 := by
  have h := c4_413_fallback_once (Except.error "413 payload too large") "" (Except.ok "pdftext")
    1000 (fun _ => Except.ok ⟨"SUMMARY", none⟩) "413 payload too large" rfl (by decide)
  have h3 := h.2.2.1 "pdftext" ⟨"SUMMARY", none⟩ rfl rfl
  exact ⟨h.1, h.2.1, h3.1, h3.2⟩

end ZoteroTLDR
